import Mathlib

/-!
Shallow embedding of `ngcpop.py`: a data-collection script that pages
through a coin-population REST API, maps numeric grades to display
labels, and aggregates per-coin grade counts.

HTTP transport (`requests.get` / `fetch_json`) is abstracted as an
oracle from page numbers to decoded responses; a fetch that raises is
an `Except.error`.  Python `while True` loops are embedded with an
explicit fuel parameter; the embedding additionally records which page
numbers were requested, so that pagination claims can be stated.
-/

/-- JSON-ish values stored in a coin record.  Python `bool` is a
subclass of `int`, so JSON booleans are folded into `vint` (True ↦ 1,
False ↦ 0), matching `isinstance(value, int)` in the source. -/
inductive JVal where
  | vint : Int → JVal
  | vstr : String → JVal
  | vnull : JVal
deriving DecidableEq

/-- One coin record: a Python dict in iteration (insertion) order. -/
abbrev CoinRec := List (String × JVal)

/-- Decoded JSON body of one page of the groups endpoint.  `items` is
`none` when the "Items" key is absent; each item is abstracted to its
`researchGroupID`.  An absent "ShowNextPage" is falsy, hence `false`. -/
structure GroupsPage where
  items : Option (List Int)
  showNextPage : Bool
deriving DecidableEq

/-- Decoded JSON body of one page of the population endpoint. -/
structure PopPage where
  items : Option (List CoinRec)
  showNextPage : Bool
deriving DecidableEq

/-- Result of running a fuelled fetch loop: `result = none` means the
fuel ran out (the Python loop would still be running); `requested` is
the list of page numbers for which a request was issued. -/
structure FetchRun (α : Type) where
  result : Option (Except String α)
  requested : List Nat

/-- Embedding of `map_grade` (ngcpop.py lines 31-54): nested
`if grade >= ...` chain, else-branch fallback `designation + str(grade)`.
Python `f"{designation}{grade}"` is `designation ++ toString grade`. -/
def map_grade (designation : String) (grade : Int) : String :=
  if grade ≥ 60 then designation ++ toString grade
  else if grade ≥ 50 then "AU" ++ toString grade
  else if grade ≥ 40 then "XF" ++ toString grade
  else if grade ≥ 20 then "VF" ++ toString grade
  else if grade ≥ 12 then "F" ++ toString grade
  else if grade ≥ 8 then "VG" ++ toString grade
  else if grade ≥ 4 then "G" ++ toString grade
  else if grade = 3 then "AG3"
  else if grade = 2 then "FR2"
  else if grade = 1 then "PO1"
  else designation ++ toString grade

/-- One band of the spec's banding table (§4.2, alternate banding):
inclusive bounds, `hi = none` meaning unbounded above, and
`pre = none` meaning the label prefix is the designation itself. -/
structure Band where
  lo : Int
  hi : Option Int
  pre : Option String
deriving DecidableEq

/-- Does a grade fall inside a band (both ends inclusive)? -/
def Band.mem (b : Band) (g : Int) : Bool :=
  decide (b.lo ≤ g) && (match b.hi with
    | none => true
    | some h => decide (g ≤ h))

/-- Modelled from the spec: the banding table of §4.2 in priority
order, using the alternate banding (top band ≥ 60 designation-prefixed,
8-11 `VG`, 4-7 `G`, then discrete values 3/2/1). -/
def specBandTable : List Band :=
  [⟨60, none, none⟩,
   ⟨50, some 59, some "AU"⟩,
   ⟨40, some 49, some "XF"⟩,
   ⟨20, some 39, some "VF"⟩,
   ⟨12, some 19, some "F"⟩,
   ⟨8, some 11, some "VG"⟩,
   ⟨4, some 7, some "G"⟩,
   ⟨3, some 3, some "AG"⟩,
   ⟨2, some 2, some "FR"⟩,
   ⟨1, some 1, some "PO"⟩]

/-- Modelled from the spec: apply the first matching band in priority
order; a grade outside all bands gets the designation-prefixed
fallback, never dropped. -/
def firstBandLabel (designation : String) (grade : Int) : String :=
  match specBandTable.find? (fun b => b.mem grade) with
  | some b => b.pre.getD designation ++ toString grade
  | none => designation ++ toString grade

/-- Python `s.startswith(pre)`: character-list prefix test. -/
def py_startswith (s pre : String) : Bool :=
  pre.toList.isPrefixOf s.toList

/-- Python `s.split(sep)` for a single-character separator: split the
character list at every occurrence of `sep`, keeping empty components
(so the result always has one more component than there are
separators). -/
def py_split (sep : Char) : List Char → List (List Char)
  | [] => [[]]
  | c :: cs =>
    match py_split sep cs with
    | [] => [[c]]
    | h :: t => if c == sep then [] :: h :: t else (c :: h) :: t

/-- The `key.split("_")[1]` of ngcpop.py line 73, as a string.  A key
that starts with `"population_"` contains an underscore, so the split
has at least two components and the index never raises. -/
def split_component_1 (key : String) : String :=
  String.mk ((py_split '_' key.toList).getD 1 [])

/-- Python `s.strip()`: drop whitespace from both ends. -/
def py_strip (l : List Char) : List Char :=
  ((l.dropWhile Char.isWhitespace).reverse.dropWhile Char.isWhitespace).reverse

/-- A nonempty all-digit character run as a number, else `none`. -/
def digitsToNat? (l : List Char) : Option Nat :=
  if l ≠ [] ∧ l.all Char.isDigit then
    some (l.foldl (fun n c => n * 10 + (c.toNat - 48)) 0)
  else none

/-- Model of Python `int(s)` on a string with no underscores (the
argument is always one component of `key.split("_")`): optional
surrounding whitespace, optional single sign, then a nonempty run of
decimal digits; anything else raises `ValueError`, modelled as `none`.
(Non-ASCII decimal digits, which CPython also accepts, are outside
the model.) -/
def pyIntParse (s : String) : Option Int :=
  match py_strip s.toList with
  | '-' :: rest => (digitsToNat? rest).map (fun n => -(n : Int))
  | '+' :: rest => (digitsToNat? rest).map (fun n => (n : Int))
  | l => (digitsToNat? l).map (fun n => (n : Int))

/-- The sort key of ngcpop.py line 80:
`int("".join([c for c in x[0] if c.isdigit()]))`, the decimal number
formed by the digit characters of a label.  Every label produced by
`map_grade` contains at least one digit, so the `ValueError` on a
digitless string is unreachable; the model totalises it with 0. -/
def sortKey (s : String) : Nat :=
  (s.toList.filter Char.isDigit).foldl (fun n c => n * 10 + (c.toNat - 48)) 0

/-- Insert an element into a list that is sorted by `k` descending,
before the first element of key ≤ its own (so after strictly larger
keys and before equal keys that were discovered later). -/
def insertDesc {α : Type} (k : α → Nat) (x : α) : List α → List α
  | [] => [x]
  | y :: ys => if k y ≤ k x then x :: y :: ys else y :: insertDesc k x ys

/-- Embedding of `grade_counts.sort(key=..., reverse=True)` at
ngcpop.py line 80.  CPython's `list.sort` with `reverse=True` is the
stable descending sort by the key; this insertion sort computes exactly
that (permutation, descending order and tie stability are proved
below, and together they determine the output uniquely). -/
def sortDesc {α : Type} (k : α → Nat) : List α → List α
  | [] => []
  | x :: xs => insertDesc k x (sortDesc k xs)

/-- Python `coin.get(key)`: first (unique) matching key of the dict. -/
def lookupField (coin : CoinRec) (k : String) : Option JVal :=
  (coin.find? (fun kv => kv.1 == k)).map (fun kv => kv.2)

/-- Embedding of the field scan of ngcpop.py lines 69-77: for each
`(key, value)` of the record in order, if the key starts with
`"population_"` and the value is a positive int, try
`int(key.split("_")[1])`; `ValueError` is caught and the field
skipped.  A key that starts with `"population_"` contains an
underscore, so `split("_")` has at least two components and the
index `[1]` never raises. -/
def extract_grade_counts (designation : String) (coin : CoinRec) :
    List (String × Int) :=
  coin.foldl
    (fun grade_counts kv =>
      match kv.2 with
      | JVal.vint v =>
        if py_startswith kv.1 "population_" && decide (0 < v) then
          match pyIntParse (split_component_1 kv.1) with
          | some grade =>
              grade_counts ++ [(map_grade designation grade, v)]
          | none => grade_counts
        else grade_counts
      | _ => grade_counts)
    []

/-- One output row (ngcpop.py lines 81-86): the JSON object with keys
"GroupID", "Coin Name", "Designation", "Grades"; each grade entry
pairs the label with its count. -/
structure CoinResult where
  groupID : Int
  coinName : JVal
  designation : String
  grades : List (String × Int)
deriving DecidableEq

/-- Embedding of the per-coin body of the loop (ngcpop.py lines
67-86): extract grade counts, and emit a row (with the grade counts
sorted by embedded numeric grade, descending) only when at least one
pair survived. -/
def process_coin (group_id : Int) (designation : String) (coin : CoinRec) :
    Option CoinResult :=
  let display_name :=
    (lookupField coin "displayName").getD
      (JVal.vstr ("Group " ++ toString group_id))
  let grade_counts := extract_grade_counts designation coin
  if grade_counts.isEmpty then none
  else some
    { groupID := group_id
      coinName := display_name
      designation := designation
      grades := sortDesc (fun x => sortKey x.1) grade_counts }

/-- Embedding of the paging loop of `get_all_group_ids` (ngcpop.py
lines 15-28).  `fetch page` abstracts `fetch_json` on the URL for that
page number; an exception is `Except.error`.  The loop breaks on an
empty-or-missing Items array (before extending), extends the id list,
then breaks on a falsy ShowNextPage, else moves to the next page. -/
def get_all_group_ids_aux (fetch : Nat → Except String GroupsPage) :
    Nat → Nat → List Int → FetchRun (List Int)
  | 0, _, _ => ⟨none, []⟩
  | fuel+1, page, ids =>
    match fetch page with
    | Except.error e => ⟨some (Except.error e), [page]⟩
    | Except.ok data =>
      let items := data.items.getD []
      if items.isEmpty then ⟨some (Except.ok ids), [page]⟩
      else if data.showNextPage = false then
        ⟨some (Except.ok (ids ++ items)), [page]⟩
      else
        let r := get_all_group_ids_aux fetch fuel (page+1) (ids ++ items)
        ⟨r.result, page :: r.requested⟩

/-- Embedding of `get_all_group_ids`: run the paging loop from page 1
with an empty accumulator. -/
def get_all_group_ids (fetch : Nat → Except String GroupsPage)
    (fuel : Nat) : FetchRun (List Int) :=
  get_all_group_ids_aux fetch fuel 1 []

/-- Embedding of the paging loop of `get_grades_for_group` (ngcpop.py
lines 57-91): same pagination shape as discovery, processing each
page's coins in order before the ShowNextPage check. -/
def get_grades_for_group_aux (fetch : Nat → Except String PopPage)
    (group_id : Int) (designation : String) :
    Nat → Nat → List CoinResult → FetchRun (List CoinResult)
  | 0, _, _ => ⟨none, []⟩
  | fuel+1, page, results =>
    match fetch page with
    | Except.error e => ⟨some (Except.error e), [page]⟩
    | Except.ok data =>
      let items := data.items.getD []
      if items.isEmpty then ⟨some (Except.ok results), [page]⟩
      else
        let results' :=
          results ++ items.filterMap (process_coin group_id designation)
        if data.showNextPage = false then ⟨some (Except.ok results'), [page]⟩
        else
          let r := get_grades_for_group_aux fetch group_id designation
                     fuel (page+1) results'
          ⟨r.result, page :: r.requested⟩

/-- Embedding of `get_grades_for_group`: run the population paging
loop from page 1 with an empty result list. -/
def get_grades_for_group (fetch : Nat → Except String PopPage)
    (group_id : Int) (designation : String) (fuel : Nat) :
    FetchRun (List CoinResult) :=
  get_grades_for_group_aux fetch group_id designation fuel 1 []

/-- The (group, designation) units submitted to the pool (ngcpop.py
lines 101-103): one "PF" and one "MS" unit per discovered group id. -/
def units_of (gids : List Int) : List (Int × String) :=
  gids.flatMap (fun g => [(g, "PF"), (g, "MS")])

/-- One dispatched unit of work: `future.result()` for
`get_grades_for_group(gid, designation)`.  `pfetch gid designation`
abstracts `fetch_json` on the population URL of that pair. -/
def run_unit (pfetch : Int → String → Nat → Except String PopPage)
    (fuel : Nat) (u : Int × String) : Option (Except String (List CoinResult)) :=
  (get_grades_for_group (pfetch u.1 u.2) u.1 u.2 fuel).result

/-- The log line printed when a unit raises (ngcpop.py line 112). -/
def unit_log (u : Int × String) (e : String) : String :=
  "Error fetching " ++ toString u.1 ++ " (" ++ u.2 ++ "): " ++ e

/-- Embedding of `main` (ngcpop.py lines 94-118) up to the output
document: discovery runs first and unguarded, so its exception (or
divergence) is the run's; then every unit is dispatched, and at the
collection point an `ok` extends `all_rows` while an exception is
caught and turned into a log line.  `as_completed` yields units in an
arbitrary order; the model collects in submission order, one legal
completion order.  Returns the pair (all_rows, error log). -/
def main_run (gfetch : Nat → Except String GroupsPage)
    (pfetch : Int → String → Nat → Except String PopPage) (fuel : Nat) :
    Option (Except String (List CoinResult × List String)) :=
  match (get_all_group_ids gfetch fuel).result with
  | none => none
  | some (Except.error e) => some (Except.error e)
  | some (Except.ok gids) =>
    ((units_of gids).foldl
      (fun acc u =>
        acc.bind (fun rl =>
          match run_unit pfetch fuel u with
          | none => none
          | some (Except.ok rs) => some (rl.1 ++ rs, rl.2)
          | some (Except.error e) => some (rl.1, rl.2 ++ [unit_log u e])))
      (some ([], []))).map Except.ok

/-- The stop condition of the discovery loop, as a predicate on the
decoded page: empty-or-absent Items, or falsy ShowNextPage. -/
def groups_stop (p : GroupsPage) : Bool :=
  (p.items.getD []).isEmpty || !p.showNextPage

/-- The stop condition of the population loop. -/
def pop_stop (p : PopPage) : Bool :=
  (p.items.getD []).isEmpty || !p.showNextPage

/-- Modelled from the claim's words: a field name of the form
"population_" followed by a purely numeric (digits-only, nonempty)
suffix. -/
def spec_numeric_suffix_key (key : String) : Bool :=
  py_startswith key "population_"
    && !(key.toList.drop 11).isEmpty
    && (key.toList.drop 11).all Char.isDigit

/-- The per-field contribution rule actually implemented by the scan:
the name starts with "population_", the value is a strictly positive
integer, and the component of the name between the first and the
second underscore parses as an optionally-signed integer. -/
def contributes (designation : String) (kv : String × JVal) :
    Option (String × Int) :=
  match kv.2 with
  | JVal.vint v =>
    if py_startswith kv.1 "population_" && decide (0 < v) then
      (pyIntParse (split_component_1 kv.1)).map
        (fun grade => (map_grade designation grade, v))
    else none
  | _ => none

/-- Witness fixture: a two-page groups endpoint (stop at page 2 via a
falsy ShowNextPage). -/
def gPagesW : Nat → GroupsPage := fun n =>
  if n = 1 then ⟨some [4], true⟩ else ⟨some [9], false⟩

/-- Witness fixture: fetch oracle for `gPagesW`, never raising. -/
def gFetchW : Nat → Except String GroupsPage := fun n => Except.ok (gPagesW n)

/-- Witness fixture: one-page discovery returning the single group 4. -/
def gFetchOneW : Nat → Except String GroupsPage := fun _ =>
  Except.ok ⟨some [4], false⟩

/-- Witness fixture: discovery that raises on its first request. -/
def gFetchErrW : Nat → Except String GroupsPage := fun _ =>
  Except.error "denied"

/-- Witness fixture: the spec's example coin record. -/
def coinW : CoinRec :=
  [("displayName", JVal.vstr "1909-S VDB"),
   ("population_65", JVal.vint 12),
   ("population_60", JVal.vint 3),
   ("population_0", JVal.vint 5)]

/-- Witness fixture: a population endpoint serving `coinW` on page 1
and stopping at page 2 via an absent Items array. -/
def pPagesW : Nat → PopPage := fun n =>
  if n = 1 then ⟨some [coinW], true⟩ else ⟨none, false⟩

/-- Witness fixture: fetch oracle for `pPagesW`, never raising. -/
def pFetchW : Nat → Except String PopPage := fun n => Except.ok (pPagesW n)

/-- Witness fixture: the row produced from `coinW` for group 7. -/
def rowW : CoinResult :=
  { groupID := 7
    coinName := JVal.vstr "1909-S VDB"
    designation := "MS"
    grades := [("MS65", 12), ("MS60", 3), ("MS0", 5)] }

/-- Witness fixture: the row produced from `coinW` for group 4. -/
def rowW4 : CoinResult :=
  { groupID := 4
    coinName := JVal.vstr "1909-S VDB"
    designation := "MS"
    grades := [("MS65", 12), ("MS60", 3), ("MS0", 5)] }

/-- Witness fixture: per-unit population oracle whose "PF" units raise
on page 2 after a successful page 1, while "MS" units succeed. -/
def pFetchMixW : Int → String → Nat → Except String PopPage :=
  fun _ des n =>
    if des = "PF" then
      (if n = 1 then Except.ok ⟨some [coinW], true⟩
       else Except.error "boom")
    else Except.ok (pPagesW n)

theorem map_grade_eq_firstBandLabel (d : String) (g : Int) (hg : 0 ≤ g) :
    map_grade d g = firstBandLabel d g := by
  rcases lt_or_ge g 60 with hlt | hge
  · interval_cases g <;> rfl
  · unfold map_grade firstBandLabel specBandTable
    rw [if_pos hge]
    rw [List.find?_cons_of_pos]
    · rfl
    · simp [Band.mem]
      omega

theorem bands_no_overlap (g : Int) :
    ∀ b1 ∈ specBandTable, ∀ b2 ∈ specBandTable,
      b1.mem g = true → b2.mem g = true → b1 = b2 := by
  intro b1 hb1 b2 hb2 h1 h2
  simp only [specBandTable, List.mem_cons, List.not_mem_nil, or_false] at hb1 hb2
  rcases hb1 with h | h | h | h | h | h | h | h | h | h <;>
    rcases hb2 with h' | h' | h' | h' | h' | h' | h' | h' | h' | h' <;>
      subst h <;> subst h' <;> simp_all [Band.mem] <;> omega

theorem get_all_group_ids_aux_pages
    (fetch : Nat → Except String GroupsPage) (pages : Nat → GroupsPage)
    (hf : ∀ n, fetch n = Except.ok (pages n)) (K : Nat)
    (hK : groups_stop (pages K) = true) :
    ∀ (fuel p : Nat) (ids : List Int), 1 ≤ p → p ≤ K →
      (∀ m, p ≤ m → m < K → groups_stop (pages m) = false) →
      (get_all_group_ids_aux fetch fuel p ids).requested
          = List.range' p (min fuel (K + 1 - p))
      ∧ (K + 1 - p ≤ fuel →
          ∃ out, (get_all_group_ids_aux fetch fuel p ids).result
            = some (Except.ok out)) := by
  intro fuel
  induction fuel with
  | zero =>
    intro p ids hp hpK hmid
    refine ⟨by simp [get_all_group_ids_aux], fun h => absurd h (by omega)⟩
  | succ fuel ih =>
    intro p ids hp hpK hmid
    rcases eq_or_lt_of_le hpK with heq | hlt
    · subst heq
      by_cases hit : ((pages p).items.getD []).isEmpty
      · refine ⟨?_, fun _ => ⟨ids, ?_⟩⟩ <;>
          simp [get_all_group_ids_aux, hf p, hit]
      · have hshow : (pages p).showNextPage = false := by
          simp [groups_stop, hit] at hK; exact hK
        refine ⟨?_, fun _ => ⟨ids ++ (pages p).items.getD [], ?_⟩⟩ <;>
          simp [get_all_group_ids_aux, hf p, hit, hshow]
    · have hstop : groups_stop (pages p) = false := hmid p le_rfl hlt
      cases hit : ((pages p).items.getD []).isEmpty with
      | true => exact absurd hstop (by simp [groups_stop, hit])
      | false =>
      cases hshow : (pages p).showNextPage with
      | false => exact absurd hstop (by simp [groups_stop, hit, hshow])
      | true =>
      have ihp := ih (p + 1) (ids ++ (pages p).items.getD [])
        (by omega) (by omega) (fun m h1 h2 => hmid m (by omega) h2)
      have hstep : get_all_group_ids_aux fetch (fuel + 1) p ids
          = ⟨(get_all_group_ids_aux fetch fuel (p + 1)
                (ids ++ (pages p).items.getD [])).result,
             p :: (get_all_group_ids_aux fetch fuel (p + 1)
                (ids ++ (pages p).items.getD [])).requested⟩ := by
        simp [get_all_group_ids_aux, hf p, hit, hshow]
      constructor
      · rw [hstep]
        show p :: _ = _
        rw [ihp.1]
        have h1 : K + 1 - p = (K - p) + 1 := by omega
        have h2 : K + 1 - (p + 1) = K - p := by omega
        rw [h1, h2, Nat.succ_min_succ, List.range'_succ]
      · intro hle
        obtain ⟨out, hout⟩ := ihp.2 (by omega)
        refine ⟨out, ?_⟩
        rw [hstep]
        exact hout

theorem get_grades_for_group_aux_pages
    (fetch : Nat → Except String PopPage) (pages : Nat → PopPage)
    (gid : Int) (des : String)
    (hf : ∀ n, fetch n = Except.ok (pages n)) (K : Nat)
    (hK : pop_stop (pages K) = true) :
    ∀ (fuel p : Nat) (rs : List CoinResult), 1 ≤ p → p ≤ K →
      (∀ m, p ≤ m → m < K → pop_stop (pages m) = false) →
      (get_grades_for_group_aux fetch gid des fuel p rs).requested
          = List.range' p (min fuel (K + 1 - p))
      ∧ (K + 1 - p ≤ fuel →
          ∃ out, (get_grades_for_group_aux fetch gid des fuel p rs).result
            = some (Except.ok out)) := by
  intro fuel
  induction fuel with
  | zero =>
    intro p rs hp hpK hmid
    refine ⟨by simp [get_grades_for_group_aux], fun h => absurd h (by omega)⟩
  | succ fuel ih =>
    intro p rs hp hpK hmid
    rcases eq_or_lt_of_le hpK with heq | hlt
    · subst heq
      by_cases hit : ((pages p).items.getD []).isEmpty
      · refine ⟨?_, fun _ => ⟨rs, ?_⟩⟩ <;>
          simp [get_grades_for_group_aux, hf p, hit]
      · have hshow : (pages p).showNextPage = false := by
          simp [pop_stop, hit] at hK; exact hK
        refine ⟨?_, fun _ =>
            ⟨rs ++ ((pages p).items.getD []).filterMap (process_coin gid des), ?_⟩⟩ <;>
          simp [get_grades_for_group_aux, hf p, hit, hshow]
    · have hstop : pop_stop (pages p) = false := hmid p le_rfl hlt
      cases hit : ((pages p).items.getD []).isEmpty with
      | true => exact absurd hstop (by simp [pop_stop, hit])
      | false =>
      cases hshow : (pages p).showNextPage with
      | false => exact absurd hstop (by simp [pop_stop, hit, hshow])
      | true =>
      have ihp := ih (p + 1)
        (rs ++ ((pages p).items.getD []).filterMap (process_coin gid des))
        (by omega) (by omega) (fun m h1 h2 => hmid m (by omega) h2)
      have hstep : get_grades_for_group_aux fetch gid des (fuel + 1) p rs
          = ⟨(get_grades_for_group_aux fetch gid des fuel (p + 1)
                (rs ++ ((pages p).items.getD []).filterMap (process_coin gid des))).result,
             p :: (get_grades_for_group_aux fetch gid des fuel (p + 1)
                (rs ++ ((pages p).items.getD []).filterMap (process_coin gid des))).requested⟩ := by
        simp [get_grades_for_group_aux, hf p, hit, hshow]
      constructor
      · rw [hstep]
        show p :: _ = _
        rw [ihp.1]
        have h1 : K + 1 - p = (K - p) + 1 := by omega
        have h2 : K + 1 - (p + 1) = K - p := by omega
        rw [h1, h2, Nat.succ_min_succ, List.range'_succ]
      · intro hle
        obtain ⟨out, hout⟩ := ihp.2 (by omega)
        refine ⟨out, ?_⟩
        rw [hstep]
        exact hout

theorem insertDesc_perm {α : Type} (k : α → Nat) (x : α) (l : List α) :
    List.Perm (insertDesc k x l) (x :: l) := by
  induction l with
  | nil => exact List.Perm.refl _
  | cons y ys ih =>
    unfold insertDesc
    by_cases h : k y ≤ k x
    · rw [if_pos h]
    · rw [if_neg h]
      exact List.Perm.trans (ih.cons y) (List.Perm.swap x y ys)

theorem sortDesc_perm {α : Type} (k : α → Nat) (l : List α) :
    List.Perm (sortDesc k l) l := by
  induction l with
  | nil => exact List.Perm.refl _
  | cons x xs ih =>
    exact List.Perm.trans (insertDesc_perm k x _) (ih.cons x)

theorem insertDesc_pairwise {α : Type} (k : α → Nat) (x : α) (l : List α)
    (h : l.Pairwise (fun a b => k b ≤ k a)) :
    (insertDesc k x l).Pairwise (fun a b => k b ≤ k a) := by
  induction l with
  | nil => simp [insertDesc]
  | cons y ys ih =>
    rw [List.pairwise_cons] at h
    unfold insertDesc
    by_cases hc : k y ≤ k x
    · rw [if_pos hc]
      refine List.Pairwise.cons ?_ (List.Pairwise.cons h.1 h.2)
      intro b hb
      rcases List.mem_cons.mp hb with rfl | hb
      · exact hc
      · exact le_trans (h.1 b hb) hc
    · rw [if_neg hc]
      refine List.Pairwise.cons ?_ (ih h.2)
      intro b hb
      rcases List.mem_cons.mp ((insertDesc_perm k x ys).mem_iff.mp hb) with rfl | hb
      · omega
      · exact h.1 b hb

theorem sortDesc_pairwise {α : Type} (k : α → Nat) (l : List α) :
    (sortDesc k l).Pairwise (fun a b => k b ≤ k a) := by
  induction l with
  | nil => simp [sortDesc]
  | cons x xs ih => exact insertDesc_pairwise k x _ ih

theorem insertDesc_filter_pos {α : Type} (k : α → Nat) (x : α) (l : List α)
    (key : Nat) (hx : k x = key)
    (hl : l.Pairwise (fun a b => k b ≤ k a)) :
    (insertDesc k x l).filter (fun y => decide (k y = key))
      = x :: l.filter (fun y => decide (k y = key)) := by
  induction l with
  | nil => simp [insertDesc, hx]
  | cons y ys ih =>
    rw [List.pairwise_cons] at hl
    unfold insertDesc
    by_cases hc : k y ≤ k x
    · rw [if_pos hc]
      simp [List.filter_cons, hx]
    · rw [if_neg hc]
      have hy : ¬(k y = key) := by omega
      simp only [List.filter_cons, decide_eq_true_eq, hy, if_false, ih hl.2]

theorem insertDesc_filter_neg {α : Type} (k : α → Nat) (x : α) (l : List α)
    (key : Nat) (hx : ¬(k x = key)) :
    (insertDesc k x l).filter (fun y => decide (k y = key))
      = l.filter (fun y => decide (k y = key)) := by
  induction l with
  | nil => simp [insertDesc, hx]
  | cons y ys ih =>
    unfold insertDesc
    by_cases hc : k y ≤ k x
    · rw [if_pos hc]
      simp [List.filter_cons, hx]
    · rw [if_neg hc]
      simp only [List.filter_cons, ih]

theorem sortDesc_filter {α : Type} (k : α → Nat) (l : List α) (key : Nat) :
    (sortDesc k l).filter (fun y => decide (k y = key))
      = l.filter (fun y => decide (k y = key)) := by
  induction l with
  | nil => exact rfl
  | cons hd tl ih =>
    show (insertDesc k hd (sortDesc k tl)).filter _ = _
    by_cases hx : k hd = key
    · rw [insertDesc_filter_pos k hd _ key hx (sortDesc_pairwise k tl), ih]
      simp [List.filter_cons, hx]
    · rw [insertDesc_filter_neg k hd _ key hx, ih]
      simp [List.filter_cons, hx]

theorem process_coin_some_grades {gid : Int} {des : String} {coin : CoinRec}
    {r : CoinResult} (h : process_coin gid des coin = some r) :
    r.grades = sortDesc (fun x => sortKey x.1) (extract_grade_counts des coin)
    ∧ extract_grade_counts des coin ≠ [] := by
  unfold process_coin at h
  by_cases he : (extract_grade_counts des coin).isEmpty = true
  · rw [if_pos he] at h
    exact absurd h (by simp)
  · rw [if_neg he] at h
    obtain rfl := Option.some_inj.mp h
    exact ⟨rfl, by simpa [List.isEmpty_iff] using he⟩

theorem process_coin_grades_ne_nil {gid : Int} {des : String} {coin : CoinRec}
    {r : CoinResult} (h : process_coin gid des coin = some r) :
    r.grades ≠ [] := by
  obtain ⟨hg, hne⟩ := process_coin_some_grades h
  rw [hg]
  intro hnil
  have hp := sortDesc_perm (fun x => sortKey x.1) (extract_grade_counts des coin)
  rw [hnil] at hp
  exact hne hp.symm.eq_nil

theorem get_grades_aux_provenance
    (fetch : Nat → Except String PopPage) (gid : Int) (des : String) :
    ∀ (fuel p : Nat) (rs rows : List CoinResult),
      (get_grades_for_group_aux fetch gid des fuel p rs).result
          = some (Except.ok rows) →
      ∀ r ∈ rows, r ∈ rs ∨ ∃ coin, process_coin gid des coin = some r := by
  intro fuel
  induction fuel with
  | zero =>
    intro p rs rows h
    simp [get_grades_for_group_aux] at h
  | succ fuel ih =>
    intro p rs rows h
    cases hfp : fetch p with
    | error e => simp [get_grades_for_group_aux, hfp] at h
    | ok data =>
      by_cases hit : (data.items.getD []).isEmpty
      · simp only [get_grades_for_group_aux, hfp, hit, if_true] at h
        obtain rfl : rs = rows := by simpa using h
        exact fun r hr => Or.inl hr
      · cases hshow : data.showNextPage with
        | false =>
          simp only [get_grades_for_group_aux, hfp, hit, hshow, if_false] at h
          obtain rfl :
              rs ++ (data.items.getD []).filterMap (process_coin gid des)
                = rows := by simpa using h
          intro r hr
          rcases List.mem_append.mp hr with hr | hr
          · exact Or.inl hr
          · obtain ⟨coin, _, hc⟩ := List.mem_filterMap.mp hr
            exact Or.inr ⟨coin, hc⟩
        | true =>
          have hstep :
              (get_grades_for_group_aux fetch gid des (fuel + 1) p rs).result
                = (get_grades_for_group_aux fetch gid des fuel (p + 1)
                    (rs ++ (data.items.getD []).filterMap
                      (process_coin gid des))).result := by
            simp [get_grades_for_group_aux, hfp, hit, hshow]
          rw [hstep] at h
          intro r hr
          rcases ih (p + 1) _ rows h r hr with hmem | hex
          · rcases List.mem_append.mp hmem with hr' | hr'
            · exact Or.inl hr'
            · obtain ⟨coin, _, hc⟩ := List.mem_filterMap.mp hr'
              exact Or.inr ⟨coin, hc⟩
          · exact Or.inr hex

theorem foldl_append_filterMap {α β : Type} (f : List β → α → List β)
    (g : α → Option β) (hf : ∀ acc x, f acc x = acc ++ (g x).toList) :
    ∀ (l : List α) (acc : List β),
      List.foldl f acc l = acc ++ l.filterMap g := by
  intro l
  induction l with
  | nil => simp
  | cons x rest ih =>
    intro acc
    rw [List.foldl_cons, hf, ih, List.filterMap_cons, List.append_assoc]
    cases hx : g x <;> simp

theorem contributes_step (designation : String)
    (acc : List (String × Int)) (kv : String × JVal) :
    (match kv.2 with
      | JVal.vint v =>
        if py_startswith kv.1 "population_" && decide (0 < v) then
          match pyIntParse (split_component_1 kv.1) with
          | some grade => acc ++ [(map_grade designation grade, v)]
          | none => acc
        else acc
      | _ => acc)
      = acc ++ (contributes designation kv).toList := by
  unfold contributes
  cases hv : kv.2 with
  | vint v =>
    by_cases hc : (py_startswith kv.1 "population_" && decide (0 < v)) = true
    · cases hp : pyIntParse (split_component_1 kv.1) with
      | some grade => simp [hc, hp]
      | none => simp [hc, hp]
    · simp [hc]
  | vstr s => simp
  | vnull => simp

theorem extract_grade_counts_eq_filterMap (designation : String)
    (coin : CoinRec) :
    extract_grade_counts designation coin
      = coin.filterMap (contributes designation) := by
  show List.foldl _ [] coin = _
  rw [foldl_append_filterMap _ (contributes designation)
    (fun acc kv => contributes_step designation acc kv) coin []]
  simp

theorem extract_grade_counts_nil_of_no_positive (designation : String)
    (coin : CoinRec)
    (h : ∀ kv ∈ coin, py_startswith kv.1 "population_" = true →
      ∀ v : Int, kv.2 = JVal.vint v → v ≤ 0) :
    extract_grade_counts designation coin = [] := by
  rw [extract_grade_counts_eq_filterMap]
  rw [List.filterMap_eq_nil_iff]
  intro kv hkv
  unfold contributes
  cases hv : kv.2 with
  | vint v =>
    have hnp : ¬(py_startswith kv.1 "population_" && decide (0 < v)) = true := by
      intro hc
      rw [Bool.and_eq_true] at hc
      have := h kv hkv hc.1 v hv
      have := of_decide_eq_true hc.2
      omega
    simp [hnp]
  | vstr s => rfl
  | vnull => rfl

theorem collect_foldl_spec
    (pfetch : Int → String → Nat → Except String PopPage) (fuel : Nat) :
    ∀ (us : List (Int × String)) (rows : List CoinResult) (logs : List String),
      (∀ u ∈ us, run_unit pfetch fuel u ≠ none) →
      us.foldl
        (fun acc u =>
          acc.bind (fun rl =>
            match run_unit pfetch fuel u with
            | none => none
            | some (Except.ok rs) => some (rl.1 ++ rs, rl.2)
            | some (Except.error e) => some (rl.1, rl.2 ++ [unit_log u e])))
        (some (rows, logs))
      = some
          (rows ++ us.flatMap (fun u =>
            match run_unit pfetch fuel u with
            | some (Except.ok rs) => rs
            | _ => []),
           logs ++ us.filterMap (fun u =>
            match run_unit pfetch fuel u with
            | some (Except.error e) => some (unit_log u e)
            | _ => none)) := by
  intro us
  induction us with
  | nil => intro rows logs _; simp
  | cons u rest ih =>
    intro rows logs hall
    rw [List.foldl_cons]
    cases hu : run_unit pfetch fuel u with
    | none => exact absurd hu (hall u (List.mem_cons_self u rest))
    | some res =>
      cases res with
      | ok rs =>
        simp only [hu, Option.some_bind]
        rw [ih (rows ++ rs) logs (fun v hv => hall v (List.mem_cons_of_mem u hv))]
        simp [hu, List.append_assoc]
      | error e =>
        simp only [hu, Option.some_bind]
        rw [ih rows (logs ++ [unit_log u e])
          (fun v hv => hall v (List.mem_cons_of_mem u hv))]
        simp [hu, List.append_assoc]

theorem unit_error_on_page_two
    (pfetch : Int → String → Nat → Except String PopPage)
    (gid : Int) (des : String) (e : String) (fuel : Nat) (p1 : PopPage)
    (h1 : pfetch gid des 1 = Except.ok p1) (hns : pop_stop p1 = false)
    (h2 : pfetch gid des 2 = Except.error e) (hfuel : 2 ≤ fuel) :
    run_unit pfetch fuel (gid, des) = some (Except.error e) := by
  obtain ⟨k, rfl⟩ : ∃ k, fuel = k + 2 := ⟨fuel - 2, by omega⟩
  cases hit : (p1.items.getD []).isEmpty with
  | true => exact absurd hns (by simp [pop_stop, hit])
  | false =>
  cases hshow : p1.showNextPage with
  | false => exact absurd hns (by simp [pop_stop, hit, hshow])
  | true =>
  show (get_grades_for_group_aux (pfetch gid des) gid des (k + 2) 1 []).result
    = some (Except.error e)
  have hone : get_grades_for_group_aux (pfetch gid des) gid des (k + 2) 1 []
      = ⟨(get_grades_for_group_aux (pfetch gid des) gid des (k + 1) 2
            ([] ++ (p1.items.getD []).filterMap (process_coin gid des))).result,
         1 :: (get_grades_for_group_aux (pfetch gid des) gid des (k + 1) 2
            ([] ++ (p1.items.getD []).filterMap (process_coin gid des))).requested⟩ := by
    simp [get_grades_for_group_aux, h1, hit, hshow]
  rw [hone]
  simp [get_grades_for_group_aux, h2]

theorem main_run_after_discovery
    (gfetch : Nat → Except String GroupsPage)
    (pfetch : Int → String → Nat → Except String PopPage)
    (fuel : Nat) (gids : List Int)
    (h : (get_all_group_ids gfetch fuel).result = some (Except.ok gids)) :
    main_run gfetch pfetch fuel
      = Option.map Except.ok
          ((units_of gids).foldl
            (fun acc u =>
              acc.bind (fun rl =>
                match run_unit pfetch fuel u with
                | none => none
                | some (Except.ok rs) => some (rl.1 ++ rs, rl.2)
                | some (Except.error e) => some (rl.1, rl.2 ++ [unit_log u e])))
            (some ([], []))) := by
  unfold main_run
  rw [h]

/-- C1: for every non-negative grade and designation, `map_grade`
applies the first matching band of the §4.2 (alternate) banding table
in priority order, returning that band's prefix followed by the grade;
in particular MS 65 ↦ "MS65", PF 55 ↦ "AU55", MS 1 ↦ "PO1". -/
theorem mapGrade_applies_first_matching_band :
    (∀ (d : String) (g : Int), 0 ≤ g → map_grade d g = firstBandLabel d g)
    ∧ map_grade "MS" 65 = "MS65"
    ∧ map_grade "PF" 55 = "AU55"
    ∧ map_grade "MS" 1 = "PO1" :=
  ⟨map_grade_eq_firstBandLabel, rfl, rfl, rfl⟩

/-- Witness for C1 at designation "MS", grade 7. -/
theorem mapGrade_applies_first_matching_band_witness :
    (0 : Int) ≤ 7 ∧ map_grade "MS" 7 = firstBandLabel "MS" 7 :=
  ⟨by decide, mapGrade_applies_first_matching_band.1 "MS" 7 (by decide)⟩

/-- C2: for every sequence of server responses, both paginated
fetchers request exactly pages 1, 2, ..., min(fuel, K), where K is the
first page whose Items array is empty or absent or whose ShowNextPage
is falsy; no page past K is ever requested, and with enough fuel the
loop returns normally having requested exactly pages 1..K. -/
theorem pagination_stops_at_first_stop_page :
    (∀ (fetch : Nat → Except String GroupsPage) (pages : Nat → GroupsPage),
      (∀ n, fetch n = Except.ok (pages n)) →
      ∀ K, 1 ≤ K → groups_stop (pages K) = true →
      (∀ m, 1 ≤ m → m < K → groups_stop (pages m) = false) →
      ∀ fuel,
        (get_all_group_ids fetch fuel).requested = List.range' 1 (min fuel K)
        ∧ (K ≤ fuel → ∃ out,
            (get_all_group_ids fetch fuel).result = some (Except.ok out)))
    ∧ (∀ (fetch : Nat → Except String PopPage) (pages : Nat → PopPage)
        (gid : Int) (des : String),
      (∀ n, fetch n = Except.ok (pages n)) →
      ∀ K, 1 ≤ K → pop_stop (pages K) = true →
      (∀ m, 1 ≤ m → m < K → pop_stop (pages m) = false) →
      ∀ fuel,
        (get_grades_for_group fetch gid des fuel).requested
            = List.range' 1 (min fuel K)
        ∧ (K ≤ fuel → ∃ out,
            (get_grades_for_group fetch gid des fuel).result
              = some (Except.ok out))) := by
  constructor
  · intro fetch pages hf K hK1 hKs hmid fuel
    have h := get_all_group_ids_aux_pages fetch pages hf K hKs fuel 1 []
      le_rfl hK1 hmid
    rw [Nat.add_sub_cancel] at h
    exact ⟨h.1, fun hk => h.2 (by omega)⟩
  · intro fetch pages gid des hf K hK1 hKs hmid fuel
    have h := get_grades_for_group_aux_pages fetch pages gid des hf K hKs
      fuel 1 [] le_rfl hK1 hmid
    rw [Nat.add_sub_cancel] at h
    exact ⟨h.1, fun hk => h.2 (by omega)⟩

/-- Witness for C2: against `gFetchW` the stop page is 2, and with
fuel 5 exactly pages [1, 2] are requested. -/
theorem pagination_stops_at_first_stop_page_witness :
    groups_stop (gPagesW 2) = true
    ∧ (get_all_group_ids gFetchW 5).requested = [1, 2] := by
  refine ⟨rfl, ?_⟩
  have h := pagination_stops_at_first_stop_page.1 gFetchW gPagesW
    (fun n => rfl) 2 (by decide) rfl
    (fun m h1 h2 => by interval_cases m; rfl) 5
  exact h.1

/-- C3: for every designation, grade 0 maps to the designation-prefixed
fallback, and every grade above 70 maps to the designation followed by
its decimal digits. -/
theorem mapGrade_zero_and_over_seventy :
    ∀ d : String, map_grade d 0 = d ++ "0"
      ∧ ∀ g : Int, 70 < g → map_grade d g = d ++ toString g := by
  intro d
  constructor
  · rfl
  · intro g hg
    unfold map_grade
    rw [if_pos (by omega : g ≥ 60)]

/-- Witness for C3 at designation "PF", grade 71. -/
theorem mapGrade_zero_and_over_seventy_witness :
    map_grade "PF" 0 = "PF0"
    ∧ ((70 : Int) < 71 ∧ map_grade "PF" 71 = "PF" ++ toString (71 : Int)) :=
  ⟨(mapGrade_zero_and_over_seventy "PF").1,
   by decide, (mapGrade_zero_and_over_seventy "PF").2 71 (by decide)⟩

/-- C4: every row emitted by `get_grades_for_group` has a non-empty
Grades list, and a coin record none of whose population_-prefixed
fields carries a strictly positive integer value produces no row. -/
theorem emitted_rows_have_nonempty_grades :
    (∀ (fetch : Nat → Except String PopPage) (gid : Int) (des : String)
        (fuel : Nat) (rows : List CoinResult),
      (get_grades_for_group fetch gid des fuel).result
          = some (Except.ok rows) →
      ∀ r ∈ rows, r.grades ≠ [])
    ∧ (∀ (gid : Int) (des : String) (coin : CoinRec),
      (∀ kv ∈ coin, py_startswith kv.1 "population_" = true →
        ∀ v : Int, kv.2 = JVal.vint v → v ≤ 0) →
      process_coin gid des coin = none) := by
  constructor
  · intro fetch gid des fuel rows h r hr
    rcases get_grades_aux_provenance fetch gid des fuel 1 [] rows h r hr with
      hmem | ⟨coin, hc⟩
    · exact absurd hmem (List.not_mem_nil r)
    · exact process_coin_grades_ne_nil hc
  · intro gid des coin h
    have hnil := extract_grade_counts_nil_of_no_positive des coin h
    simp [process_coin, hnil]

/-- Witness for C4: the run against `pFetchW` emits exactly `rowW`,
whose Grades list is non-empty. -/
theorem emitted_rows_have_nonempty_grades_witness :
    (get_grades_for_group pFetchW 7 "MS" 5).result = some (Except.ok [rowW])
    ∧ rowW.grades ≠ [] :=
  ⟨rfl, emitted_rows_have_nonempty_grades.1 pFetchW 7 "MS" 5 [rowW] rfl rowW
    (List.mem_singleton.mpr rfl)⟩

/-- C5: in every emitted row the Grades sequence is non-increasing in
the numeric value embedded in the label, and for each key value the
tied entries appear in their original discovery order (the sort is
stable: filtering the sorted list by any one key gives exactly the
filtered unsorted extraction). -/
theorem grades_sorted_descending_and_stable :
    (∀ (fetch : Nat → Except String PopPage) (gid : Int) (des : String)
        (fuel : Nat) (rows : List CoinResult),
      (get_grades_for_group fetch gid des fuel).result
          = some (Except.ok rows) →
      ∀ r ∈ rows, r.grades.Pairwise (fun a b => sortKey b.1 ≤ sortKey a.1))
    ∧ (∀ (gid : Int) (des : String) (coin : CoinRec) (r : CoinResult),
      process_coin gid des coin = some r →
      ∀ key : Nat,
        r.grades.filter (fun x => decide (sortKey x.1 = key))
          = (extract_grade_counts des coin).filter
              (fun x => decide (sortKey x.1 = key))) := by
  constructor
  · intro fetch gid des fuel rows h r hr
    rcases get_grades_aux_provenance fetch gid des fuel 1 [] rows h r hr with
      hmem | ⟨coin, hc⟩
    · exact absurd hmem (List.not_mem_nil r)
    · obtain ⟨hg, _⟩ := process_coin_some_grades hc
      rw [hg]
      exact sortDesc_pairwise _ _
  · intro gid des coin r hc key
    obtain ⟨hg, _⟩ := process_coin_some_grades hc
    rw [hg]
    exact sortDesc_filter _ _ key

/-- Witness for C5: the row produced from `coinW` with key 65. -/
theorem grades_sorted_descending_and_stable_witness :
    process_coin 7 "MS" coinW = some rowW
    ∧ rowW.grades.filter (fun x => decide (sortKey x.1 = 65))
        = (extract_grade_counts "MS" coinW).filter
            (fun x => decide (sortKey x.1 = 65)) :=
  ⟨rfl, grades_sorted_descending_and_stable.2 7 "MS" coinW rowW rfl 65⟩

/-- C6 counterexample: the field "population_5_abc" does not have a
numeric suffix (the claim's pattern), yet with a positive value it
contributes the pair ("G5", 2), because the code parses only
`key.split("_")[1]`, the component between the first and second
underscore. -/
theorem population_suffix_rule_counterexample :
    extract_grade_counts "MS" [("population_5_abc", JVal.vint 2)]
        = [("G5", 2)]
    ∧ spec_numeric_suffix_key "population_5_abc" = false :=
  ⟨rfl, rfl⟩

/-- C6 (amended): a field contributes a (label, count) pair iff its
name starts with "population_", its value is a strictly positive
integer, and the component of the name between the first and the
second underscore parses as an optionally-signed decimal integer
(Python `int`); every other field is skipped silently, so one
malformed field never fails the record. -/
theorem population_field_contribution_rule :
    ∀ (designation : String) (coin : CoinRec),
      extract_grade_counts designation coin
        = coin.filterMap (contributes designation) :=
  extract_grade_counts_eq_filterMap

/-- C7: a unit whose fetch raises on page 2 after a successful page 1
returns an error for the whole unit (no partial page-1 rows), and at
the collection point error units contribute zero rows plus a log line
while all other units' rows are collected and the run completes. -/
theorem unit_failure_isolated :
    (∀ (pfetch : Int → String → Nat → Except String PopPage)
        (gid : Int) (des : String) (e : String) (fuel : Nat) (p1 : PopPage),
      pfetch gid des 1 = Except.ok p1 → pop_stop p1 = false →
      pfetch gid des 2 = Except.error e → 2 ≤ fuel →
      run_unit pfetch fuel (gid, des) = some (Except.error e))
    ∧ (∀ (gfetch : Nat → Except String GroupsPage)
        (pfetch : Int → String → Nat → Except String PopPage)
        (fuel : Nat) (gids : List Int),
      (get_all_group_ids gfetch fuel).result = some (Except.ok gids) →
      (∀ u ∈ units_of gids, run_unit pfetch fuel u ≠ none) →
      main_run gfetch pfetch fuel
        = some (Except.ok
            ((units_of gids).flatMap (fun u =>
              match run_unit pfetch fuel u with
              | some (Except.ok rs) => rs
              | _ => []),
             (units_of gids).filterMap (fun u =>
              match run_unit pfetch fuel u with
              | some (Except.error e) => some (unit_log u e)
              | _ => none)))) := by
  constructor
  · exact unit_error_on_page_two
  · intro gfetch pfetch fuel gids hdisc hall
    rw [main_run_after_discovery gfetch pfetch fuel gids hdisc,
      collect_foldl_spec pfetch fuel (units_of gids) [] [] hall]
    simp

/-- Witness for C7: against `pFetchMixW` the (4, PF) unit raises on
page 2 and contributes nothing, while the (4, MS) unit's row survives
and the failure is logged. -/
theorem unit_failure_isolated_witness :
    run_unit pFetchMixW 5 (4, "PF") = some (Except.error "boom")
    ∧ main_run gFetchOneW pFetchMixW 5
        = some (Except.ok ([rowW4], ["Error fetching 4 (PF): boom"])) := by
  constructor
  · exact unit_failure_isolated.1 pFetchMixW 4 "PF" "boom" 5
      ⟨some [coinW], true⟩ rfl rfl rfl (by omega)
  · exact unit_failure_isolated.2 gFetchOneW pFetchMixW 5 [4] rfl
      (by
        intro u hu
        fin_cases hu
        · intro hc
          exact Option.noConfusion
            ((rfl : run_unit pFetchMixW 5 (4, "PF")
                = some (Except.error "boom")).symm.trans hc)
        · intro hc
          exact Option.noConfusion
            ((rfl : run_unit pFetchMixW 5 (4, "MS")
                = some (Except.ok [rowW4])).symm.trans hc))

/-- C8: for every non-negative grade, no two bands of the table both
contain it (non-overlap), `map_grade` agrees with the first-matching-
band lookup (so with the fallback the table is exhaustive), and the
function returns exactly one label; as a total Lean function it never
raises and is a pure function of its two arguments. -/
theorem map_grade_total_and_bands_disjoint :
    ∀ (d : String) (g : Int), 0 ≤ g →
      (∀ b1 ∈ specBandTable, ∀ b2 ∈ specBandTable,
        b1.mem g = true → b2.mem g = true → b1 = b2)
      ∧ map_grade d g = firstBandLabel d g
      ∧ ∃! lbl : String, map_grade d g = lbl :=
  fun d g hg =>
    ⟨bands_no_overlap g, map_grade_eq_firstBandLabel d g hg,
      ⟨map_grade d g, rfl, fun _ hy => hy.symm⟩⟩

/-- Witness for C8 at designation "MS", grade 65. -/
theorem map_grade_total_and_bands_disjoint_witness :
    (0 : Int) ≤ 65 ∧ map_grade "MS" 65 = firstBandLabel "MS" 65 :=
  ⟨by decide, (map_grade_total_and_bands_disjoint "MS" 65 (by decide)).2.1⟩

/-- C9: a discovery failure propagates out of the run untouched (the
run's outcome is that very error, before any aggregation or output),
whereas once discovery succeeds the run always completes normally, no
matter which units fail. -/
theorem discovery_failure_fatal :
    (∀ (gfetch : Nat → Except String GroupsPage)
        (pfetch : Int → String → Nat → Except String PopPage)
        (fuel : Nat) (e : String),
      (get_all_group_ids gfetch fuel).result = some (Except.error e) →
      main_run gfetch pfetch fuel = some (Except.error e))
    ∧ (∀ (gfetch : Nat → Except String GroupsPage)
        (pfetch : Int → String → Nat → Except String PopPage)
        (fuel : Nat) (gids : List Int),
      (get_all_group_ids gfetch fuel).result = some (Except.ok gids) →
      (∀ u ∈ units_of gids, run_unit pfetch fuel u ≠ none) →
      ∃ out, main_run gfetch pfetch fuel = some (Except.ok out)) := by
  constructor
  · intro gfetch pfetch fuel e h
    unfold main_run
    rw [h]
  · intro gfetch pfetch fuel gids h hall
    refine ⟨((units_of gids).flatMap (fun u =>
        match run_unit pfetch fuel u with
        | some (Except.ok rs) => rs
        | _ => []),
      (units_of gids).filterMap (fun u =>
        match run_unit pfetch fuel u with
        | some (Except.error e) => some (unit_log u e)
        | _ => none)), ?_⟩
    rw [main_run_after_discovery gfetch pfetch fuel gids h,
      collect_foldl_spec pfetch fuel (units_of gids) [] [] hall]
    simp

/-- Witness for C9: a discovery error "denied" is the whole run's
result. -/
theorem discovery_failure_fatal_witness :
    (get_all_group_ids gFetchErrW 5).result = some (Except.error "denied")
    ∧ main_run gFetchErrW pFetchMixW 5 = some (Except.error "denied") :=
  ⟨rfl, discovery_failure_fatal.1 gFetchErrW pFetchMixW 5 "denied" rfl⟩

/-- C10: `map_grade` is total over all integers: every negative grade
takes the designation-prefixed fallback branch, so callers never see
an exception even outside the non-negative precondition. -/
theorem map_grade_negative_fallback :
    ∀ (d : String) (g : Int), g < 0 → map_grade d g = d ++ toString g := by
  intro d g hg
  have h60 : ¬(g ≥ 60) := by omega
  have h50 : ¬(g ≥ 50) := by omega
  have h40 : ¬(g ≥ 40) := by omega
  have h20 : ¬(g ≥ 20) := by omega
  have h12 : ¬(g ≥ 12) := by omega
  have h8 : ¬(g ≥ 8) := by omega
  have h4 : ¬(g ≥ 4) := by omega
  have h3 : ¬(g = 3) := by omega
  have h2 : ¬(g = 2) := by omega
  have h1 : ¬(g = 1) := by omega
  simp [map_grade, h60, h50, h40, h20, h12, h8, h4, h3, h2, h1]

/-- Witness for C10 at designation "MS", grade -5. -/
theorem map_grade_negative_fallback_witness :
    (-5 : Int) < 0 ∧ map_grade "MS" (-5) = "MS" ++ toString (-5 : Int) :=
  ⟨by decide, map_grade_negative_fallback "MS" (-5) (by decide)⟩
